import Mathlib

/-!
Shallow embedding of the fractal-clock engine from `src/fractal_clock.rs`.

Machine floats (`f32`) are modelled by an arbitrary linear ordered field `K`
with a floor function; concrete evaluations instantiate `K := ℚ`, and the
trigonometric parts instantiate `K := ℝ` with `Real.sin` / `Real.cos` passed
for the sine/cosine operations the source takes from the standard library.
Rust's `f32::round` (round half away from zero) and the saturating `as u8`
cast are modelled exactly on the idealised field.
-/

set_option linter.unusedSectionVars false
set_option linter.unnecessarySeqFocus false
set_option linter.unusedVariables false

namespace FractalClock

/-- egui `Color32`: four 8-bit channels (premultiplied RGBA bytes). -/
structure Color32 where
  r : ℕ
  g : ℕ
  b : ℕ
  a : ℕ
deriving DecidableEq

/-- egui `Hsva`: hue, saturation, value, alpha. -/
structure Hsva (K : Type) where
  h : K
  s : K
  v : K
  a : K
deriving DecidableEq

/-- `FractalClockConfig` from the source, field for field. -/
structure FractalClockConfig (K : Type) where
  zoom : K
  start_line_width : K
  depth : ℕ
  length_factor : K
  luminance_factor : K
  width_factor : K
  branch_color : Color32
  hand_color : Color32
  rainbow_mode : Bool
  start_hsv : Hsva K
  end_hsv : Hsva K
deriving DecidableEq

/-- A color stored in `depth_colors`: in solid mode the source builds explicit
premultiplied RGBA bytes; in rainbow mode it converts an `Hsva` value to
`Color32` via egui.  The egui conversion is an external-library function, so
the rainbow case is kept symbolic as the `Hsva` quadruple it converts. -/
inductive DepthColor (K : Type) where
  | premult (r g b a : ℕ)
  | ofHsva (h s v a : K)
deriving DecidableEq

variable {K : Type} [LinearOrderedField K] [FloorRing K]

/-- Rust `f32::round`: round half away from zero. -/
def rustRound (x : K) : ℤ := if 0 ≤ x then ⌊x + 1 / 2⌋ else -⌊-x + 1 / 2⌋

/-- Rust saturating float-to-`u8` cast (`as u8`). -/
def toU8 (z : ℤ) : ℕ := min z.toNat 255

/-- `multiply_color` closure from `update_colors`:
`(color * factor * 255.0).round() as u8`. -/
def multiply_color (color factor : K) : ℕ := toU8 (rustRound (color * factor * 255))

/-- `MIN_LUMINANCE` constant: `0.5 / 255.0`. -/
def minLuminance : K := 0.5 / 255

/-- One entry pushed by the solid (non-rainbow) branch of `update_colors`:
channels of `branch_color` divided by 255, multiplied back by the luminance
factor, rounded; alpha rounded without the factor. -/
def solidEntry (branch : Color32) (factor : K) : DepthColor K :=
  let r : K := (branch.r : K) / 255
  let g : K := (branch.g : K) / 255
  let b : K := (branch.b : K) / 255
  let a : K := (branch.a : K) / 255
  DepthColor.premult (multiply_color r factor) (multiply_color g factor)
    (multiply_color b factor) (toU8 (rustRound (a * 255)))

/-- The solid-mode loop of `update_colors`: `for _ in 0..depth` with the
luminance decay and early `break` under `MIN_LUMINANCE`; first argument of the
recursion is the remaining iteration budget. -/
def solidColors (branch : Color32) (lf : K) : ℕ → K → List (DepthColor K)
  | 0, _ => []
  | n + 1, luminance =>
    let luminance2 := luminance * lf
    if luminance2 < minLuminance then []
    else solidEntry branch (min luminance2 1) :: solidColors branch lf n luminance2

/-- egui `lerp(start..=end, t)`. -/
def lerp (lo hi t : K) : K := (1 - t) * lo + t * hi

/-- The rainbow-mode loop of `update_colors`: same decay and `break`, pushing
the `Hsva` interpolation at `t = depth_index / depth.max(1)`. -/
def rainbowColors (shsv ehsv : Hsva K) (depth : ℕ) (lf : K) :
    ℕ → ℕ → K → List (DepthColor K)
  | _, 0, _ => []
  | depth_index, n + 1, luminance =>
    let luminance2 := luminance * lf
    if luminance2 < minLuminance then []
    else
      let t : K := (depth_index : K) / ((max depth 1 : ℕ) : K)
      DepthColor.ofHsva (lerp shsv.h ehsv.h t) (lerp shsv.s ehsv.s t)
          (lerp shsv.v ehsv.v t) (lerp shsv.a ehsv.a t)
        :: rainbowColors shsv ehsv depth lf (depth_index + 1) n luminance2

/-- `FractalClockRendering::update_colors`, returning the recomputed
`depth_colors` list.  Luminance starts at `0.7`. -/
def update_colors (config : FractalClockConfig K) : List (DepthColor K) :=
  if config.rainbow_mode then
    rainbowColors config.start_hsv config.end_hsv config.depth
      config.luminance_factor 0 config.depth (0.7 : K)
  else
    solidColors config.branch_color config.luminance_factor config.depth (0.7 : K)

/-- The internal decayed luminance that produced schedule entry `i`
(0-based): `0.7 * luminance_factor ^ (i + 1)`. -/
def lum_at (config : FractalClockConfig K) (i : ℕ) : K :=
  (0.7 : K) * config.luminance_factor ^ (i + 1)

/-- Alpha channel of a computed depth color, when it is an explicit RGBA
value (solid mode); `none` for symbolic rainbow entries. -/
def alpha_of : DepthColor K → Option ℕ
  | .premult _ _ _ a => some a
  | .ofHsva _ _ _ _ => none

/-- A 2-D vector or point (egui `Vec2` / `Pos2`). -/
abbrev V2 (K : Type) := K × K

/-- egui `emath::Rot2`: a rotation-and-scale operator stored as the sine and
cosine components. -/
structure Rot2 (K : Type) where
  s : K
  c : K
deriving DecidableEq

/-- `Rot2 * Vec2` from egui:
`vec2(c * v.x - s * v.y, s * v.x + c * v.y)`. -/
def Rot2.mulVec (r : Rot2 K) (v : V2 K) : V2 K :=
  (r.c * v.1 - r.s * v.2, r.s * v.1 + r.c * v.2)

/-- `f32 * Rot2` from egui: scales both components. -/
def Rot2.scale (t : K) (r : Rot2 K) : Rot2 K := ⟨t * r.s, t * r.c⟩

/-- `Rot2::from_angle`, with the sine and cosine operations passed in
(instantiated with `Real.sin` / `Real.cos` at `K := ℝ`). -/
def Rot2.from_angle (csin ccos : K → K) (angle : K) : Rot2 K :=
  ⟨csin angle, ccos angle⟩

/-- egui `Rect`, by its `min` and `max` corners. -/
structure Rect (K : Type) where
  min : V2 K
  max : V2 K
deriving DecidableEq

/-- `Rect::intersects`: interval overlap on both axes. -/
def Rect.intersects (a b : Rect K) : Bool :=
  decide (a.min.1 ≤ b.max.1) && decide (b.min.1 ≤ a.max.1) &&
    decide (a.min.2 ≤ b.max.2) && decide (b.min.2 ≤ a.max.2)

/-- `Rect::from_two_pos`: bounding box of two points. -/
def Rect.from_two_pos (p q : V2 K) : Rect K :=
  ⟨(Min.min p.1 q.1, Min.min p.2 q.2), (Max.max p.1 q.1, Max.max p.2 q.2)⟩

/-- `Rect::from_center_size`. -/
def Rect.from_center_size (c s : V2 K) : Rect K :=
  ⟨(c.1 - 0.5 * s.1, c.2 - 0.5 * s.2), (c.1 + 0.5 * s.1, c.2 + 0.5 * s.2)⟩

/-- `Rect::square_proportions`: `(w/h, 1)` when wider than tall, else
`(1, h/w)`. -/
def Rect.square_proportions (r : Rect K) : V2 K :=
  let w := r.max.1 - r.min.1
  let h := r.max.2 - r.min.2
  if h < w then (w / h, 1) else (1, h / w)

/-- `Vec2 / f32`. -/
def Vec2.divScalar (v : V2 K) (z : K) : V2 K := (v.1 / z, v.2 / z)

/-- `emath::RectTransform`, storing source and target rectangles. -/
structure RectTransform (K : Type) where
  fr : Rect K
  toR : Rect K
deriving DecidableEq

/-- `RectTransform::transform_pos` (the `to_screen * pos` multiplications):
`emath::remap` of each coordinate, i.e. `lerp` of the target range at the
normalised position in the source range. -/
def RectTransform.transform_pos (t : RectTransform K) (p : V2 K) : V2 K :=
  (lerp t.toR.min.1 t.toR.max.1 ((p.1 - t.fr.min.1) / (t.fr.max.1 - t.fr.min.1)),
   lerp t.toR.min.2 t.toR.max.2 ((p.2 - t.fr.min.2) / (t.fr.max.2 - t.fr.min.2)))

/-- `Node`: a branch endpoint and the displacement that produced it. -/
structure Node (K : Type) where
  pos : V2 K
  dir : V2 K
deriving DecidableEq

/-- `Hand`: length, angle and the derived vector. -/
structure Hand (K : Type) where
  length : K
  angle : K
  vec : V2 K
deriving DecidableEq

/-- `Hand::from_length_angle`: `vec = length * Vec2::angled(angle)`, with
`Vec2::angled(angle) = vec2(cos angle, sin angle)`. -/
def Hand.from_length_angle (csin ccos : K → K) (length angle : K) : Hand K :=
  ⟨length, angle, (length * ccos angle, length * csin angle)⟩

/-- The three hands returned by `create_hands` (the `[Hand; 3]` array). -/
structure Hands (K : Type) where
  second : Hand K
  minute : Hand K
  hour : Hand K
deriving DecidableEq

/-- Seconds-within-minute with sub-second fraction, as the source computes it
from chrono: `second() + nanosecond()/1e9`.  For a time-of-day `T` (seconds
since midnight), chrono's `second()` is `⌊T⌋ mod 60` and the nanosecond part
is the fractional part of `T`. -/
def time_seconds (T : K) : K := ((⌊T⌋₊ % 60 : ℕ) : K) + Int.fract T

/-- `minute() + seconds / 60`; chrono's `minute()` is `⌊T / 60⌋ mod 60`. -/
def time_minutes (T : K) : K := ((⌊T / 60⌋₊ % 60 : ℕ) : K) + time_seconds T / 60

/-- `hour() + minutes / 60`; chrono's `hour()` is `⌊T / 3600⌋ mod 24`. -/
def time_hours (T : K) : K := ((⌊T / 3600⌋₊ % 24 : ℕ) : K) + time_minutes T / 60

/-- `FractalClock::create_hands`, with the sine/cosine operations and the
`TAU` constant passed in (`tau := 2 * π` at `K := ℝ`). -/
def create_hands (csin ccos : K → K) (tau : K) (config : FractalClockConfig K)
    (T : K) : Hands K :=
  ⟨Hand.from_length_angle csin ccos config.length_factor
      (tau * time_seconds T / 60 - tau / 4),
   Hand.from_length_angle csin ccos config.length_factor
      (tau * time_minutes T / 60 - tau / 4),
   Hand.from_length_angle csin ccos (0.5 : K)
      (tau * time_hours T / 12 - tau / 4)⟩

/-- `FractalClock::calculate_hand_rotors`: for each free hand, the rotation by
`hand.angle - hour.angle + TAU/2` scaled by `hand.length`. -/
def calculate_hand_rotors (csin ccos : K → K) (tau : K) (hands : Hands K) :
    List (Rot2 K) :=
  let base_rotation := fun (hand : Hand K) =>
    Rot2.scale hand.length
      (Rot2.from_angle csin ccos (hand.angle - hands.hour.angle + tau / 2))
  [base_rotation hands.second, base_rotation hands.minute]

/-- An emitted line-segment shape: the two screen endpoints, stroke width and
color (`Shape::line_segment(line, (width, color))`). -/
structure Shape (K : Type) where
  p1 : V2 K
  p2 : V2 K
  width : K
  color : DepthColor K
deriving DecidableEq

/-- The mutable drawing state threaded through `draw_hands` and
`draw_fractal_branches`: the shape buffer, the node buffer being written, and
`line_count`. -/
structure DrawAcc (K : Type) where
  shapes : List (Shape K)
  nodes : List (Node K)
  lineCount : ℕ
deriving DecidableEq

/-- One iteration of the `draw_hands` loop: emit the segment from the screen
center to the hand tip when its bounding box intersects the clip rect, and
push the tip node (`i < 2`, i.e. for the second and minute hands only). -/
def draw_hand (config : FractalClockConfig K) (to_screen : RectTransform K)
    (rect : Rect K) (screen_center : V2 K) (hand : Hand K) (push_node : Bool)
    (acc : DrawAcc K) : DrawAcc K :=
  let e : V2 K := ((0 : K) + hand.vec.1, (0 : K) + hand.vec.2)
  let screen_end := RectTransform.transform_pos to_screen e
  let acc :=
    if Rect.intersects rect (Rect.from_two_pos screen_center screen_end) then
      ⟨acc.shapes ++ [⟨screen_center, screen_end, config.start_line_width,
          DepthColor.premult config.hand_color.r config.hand_color.g
            config.hand_color.b config.hand_color.a⟩],
        acc.nodes, acc.lineCount + 1⟩
    else acc
  if push_node then ⟨acc.shapes, acc.nodes ++ [⟨e, hand.vec⟩], acc.lineCount⟩
  else acc

/-- `FractalClock::draw_hands`: the loop over the three hands, unrolled. -/
def draw_hands (config : FractalClockConfig K) (hands : Hands K)
    (to_screen : RectTransform K) (rect : Rect K) (acc : DrawAcc K) : DrawAcc K :=
  let screen_center := RectTransform.transform_pos to_screen ((0 : K), (0 : K))
  draw_hand config to_screen rect screen_center hands.hour false
    (draw_hand config to_screen rect screen_center hands.minute true
      (draw_hand config to_screen rect screen_center hands.second true acc))

/-- Innermost body of `draw_fractal_branches`: one rotor applied to one node.
The new direction is `rotor * node.dir`, the new position is
`node.pos + new_dir`; the segment between the two screen-mapped positions is
emitted when visible, and the new node is pushed to `next_nodes`. -/
def branch_step (width : K) (color : DepthColor K) (to_screen : RectTransform K)
    (rect : Rect K) (rotor : Rot2 K) (node : Node K) (acc : DrawAcc K) : DrawAcc K :=
  let new_dir := Rot2.mulVec rotor node.dir
  let new_node : Node K := ⟨(node.pos.1 + new_dir.1, node.pos.2 + new_dir.2), new_dir⟩
  let p1 := RectTransform.transform_pos to_screen node.pos
  let p2 := RectTransform.transform_pos to_screen new_node.pos
  let acc :=
    if Rect.intersects rect (Rect.from_two_pos p1 p2) then
      ⟨acc.shapes ++ [⟨p1, p2, width, color⟩], acc.nodes, acc.lineCount + 1⟩
    else acc
  ⟨acc.shapes, acc.nodes ++ [new_node], acc.lineCount⟩

/-- One depth level of `draw_fractal_branches`: the two nested loops over the
rotors and the current nodes, accumulating into the shared shape buffer and a
fresh `next_nodes` buffer carried in `acc.nodes`. -/
def level_step (width : K) (color : DepthColor K) (to_screen : RectTransform K)
    (rect : Rect K) (rotors : List (Rot2 K)) (cur : List (Node K))
    (acc : DrawAcc K) : DrawAcc K :=
  rotors.foldl
    (fun a rotor => cur.foldl
      (fun a2 node => branch_step width color to_screen rect rotor node a2) a)
    acc

/-- `FractalClock::draw_fractal_branches`: iterate over `depth_colors`,
multiplying the width by `width_factor` at the top of each level, running the
level and swapping the node buffers (the produced nodes become the current
set).  Arguments after the rect: remaining colors, current width, current
nodes, shape buffer so far, line count so far. -/
def draw_fractal_branches (config : FractalClockConfig K)
    (hand_rotors : List (Rot2 K)) (to_screen : RectTransform K) (rect : Rect K) :
    List (DepthColor K) → K → List (Node K) → List (Shape K) → ℕ → DrawAcc K
  | [], _, cur, shapes, cnt => ⟨shapes, cur, cnt⟩
  | color :: rest, width, cur, shapes, cnt =>
    let width2 := width * config.width_factor
    let acc := level_step width2 color to_screen rect hand_rotors cur
      ⟨shapes, [], cnt⟩
    draw_fractal_branches config hand_rotors to_screen rect rest width2
      acc.nodes acc.shapes acc.lineCount

/-- The same level iteration, recording each level's own emitted shapes and
produced node set separately (per-level view of `draw_fractal_branches`). -/
def branch_levels (config : FractalClockConfig K) (hand_rotors : List (Rot2 K))
    (to_screen : RectTransform K) (rect : Rect K) :
    List (DepthColor K) → K → List (Node K) → List (DrawAcc K)
  | [], _, _ => []
  | color :: rest, width, cur =>
    let width2 := width * config.width_factor
    let acc := level_step width2 color to_screen rect hand_rotors cur ⟨[], [], 0⟩
    acc :: branch_levels config hand_rotors to_screen rect rest width2 acc.nodes

/-- Node set entering depth level `d` (0-based): the hand-tip nodes at level
0, and before that, the set produced by level `d - 1`. -/
def nodes_at_depth (levels : List (DrawAcc K)) (init : List (Node K)) : ℕ → List (Node K)
  | 0 => init
  | d + 1 => (levels.getD d ⟨[], [], 0⟩).nodes

/-- `FractalClockRendering`: the reusable buffers of the engine. -/
structure Rendering (K : Type) where
  depth_colors : List (DepthColor K)
  nodes_buf1 : List (Node K)
  nodes_buf2 : List (Node K)
  shapes : List (Shape K)
deriving DecidableEq

/-- Body of `FractalClock::paint` once `depth_colors` is fixed: build the
logical-to-screen transform from the zoomed square proportions, clear the
buffers, draw the hands, then the fractal branches; return the new rendering
state, the drained shape list handed to the painter, and the line count. -/
def paint_with (depth_colors : List (DepthColor K)) (config : FractalClockConfig K)
    (hands : Hands K) (hand_rotors : List (Rot2 K)) (rect : Rect K) :
    Rendering K × List (Shape K) × ℕ :=
  let to_screen : RectTransform K :=
    ⟨Rect.from_center_size ((0 : K), (0 : K))
        (Vec2.divScalar (Rect.square_proportions rect) config.zoom), rect⟩
  let acc := draw_hands config hands to_screen rect ⟨[], [], 0⟩
  let acc2 := draw_fractal_branches config hand_rotors to_screen rect
    depth_colors config.start_line_width acc.nodes acc.shapes acc.lineCount
  (⟨depth_colors, acc2.nodes, [], []⟩, acc2.shapes, acc2.lineCount)

/-- `FractalClock::paint` for given hands and rotors: recompute the color
schedule when (and only when) the stored one is empty, then render. -/
def paint_core (st : Rendering K) (config : FractalClockConfig K)
    (hands : Hands K) (hand_rotors : List (Rot2 K)) (rect : Rect K) :
    Rendering K × List (Shape K) × ℕ :=
  paint_with (if st.depth_colors.isEmpty then update_colors config
    else st.depth_colors) config hands hand_rotors rect

/-- `FractalClock::paint` from a frozen time value: derive the hands and the
rotors from the time, then render. -/
def paint (csin ccos : K → K) (tau : K) (st : Rendering K)
    (config : FractalClockConfig K) (T : K) (rect : Rect K) :
    Rendering K × List (Shape K) × ℕ :=
  let hands := create_hands csin ccos tau config T
  paint_core st config hands (calculate_hand_rotors csin ccos tau hands) rect

/-- The paused flag and the stored time of a `FractalClock`, as used by
`FractalClock::update`. -/
structure ClockState (α : Type) where
  paused : Bool
  time : α

/-- `FractalClock::update`: when not paused, store the live clock value and
request a repaint; when paused, leave everything untouched and request
nothing.  The returned boolean records whether `request_repaint` was called. -/
def update {α : Type} (st : ClockState α) (now : α) : ClockState α × Bool :=
  if st.paused then (st, false) else (⟨st.paused, now⟩, true)

/-- The node produced by applying a rotor to a node, as §4.2 of the spec
words it: new direction `rotor * dir`, new position `pos + new direction`. -/
def new_node (r : Rot2 K) (n : Node K) : Node K :=
  ⟨(n.pos.1 + (Rot2.mulVec r n.dir).1, n.pos.2 + (Rot2.mulVec r n.dir).2),
    Rot2.mulVec r n.dir⟩

/-- Visibility test of the segment generated by a rotor and a node. -/
def seg_visible (to_screen : RectTransform K) (rect : Rect K) (r : Rot2 K)
    (n : Node K) : Bool :=
  Rect.intersects rect
    (Rect.from_two_pos (RectTransform.transform_pos to_screen n.pos)
      (RectTransform.transform_pos to_screen (new_node r n).pos))

/-- The segment emitted for a rotor and a node: from the old position to the
new position, both mapped to screen coordinates. -/
def seg_of (to_screen : RectTransform K) (w : K) (c : DepthColor K)
    (r : Rot2 K) (n : Node K) : Shape K :=
  ⟨RectTransform.transform_pos to_screen n.pos,
    RectTransform.transform_pos to_screen (new_node r n).pos, w, c⟩

/-- The segments one rotor emits over a node set: the visible ones, in node
order. -/
def level_segs (to_screen : RectTransform K) (rect : Rect K) (w : K)
    (c : DepthColor K) (r : Rot2 K) (cur : List (Node K)) : List (Shape K) :=
  (cur.filter (fun n => seg_visible to_screen rect r n)).map (seg_of to_screen w c r)

/-- The configuration of the spec's rendering scenario: zoom `0.5`, depth 3,
length/width factors `0.75`, luminance factor `1.0`, solid branch color
RGB(115, 186, 37); the remaining fields keep their defaults from the source. -/
def scenarioConfigK (K : Type) [LinearOrderedField K] : FractalClockConfig K :=
  ⟨1 / 2, 5, 3, 3 / 4, 1, 3 / 4, ⟨115, 186, 37, 255⟩, ⟨255, 255, 255, 255⟩,
    false, ⟨0, 100, 100, 1⟩, ⟨240, 100, 100, 1⟩⟩

/-- A concrete 200 × 100 clip rectangle for the scenario. -/
def scenarioRect : Rect ℚ := ⟨(0, 0), (200, 100)⟩

/-- The exact rational values of the three hands at `t = 0`: both free hands
point straight up with length `0.75`, the hour hand with length `0.5`
(`cos(-π/2) = 0`, `sin(-π/2) = -1`).  The stored `angle` field is irrational
(`-π/2`) and is never read by the drawing functions; it is set to `0` here. -/
def scenarioHands : Hands ℚ :=
  ⟨⟨3 / 4, 0, (0, -(3 / 4))⟩, ⟨3 / 4, 0, (0, -(3 / 4))⟩, ⟨1 / 2, 0, (0, -(1 / 2))⟩⟩

/-- The exact rational values of the two hand rotors at `t = 0`: rotation by
`π` scaled by `0.75` (`sin π = 0`, `cos π = -1`). -/
def scenarioRotors : List (Rot2 ℚ) := [⟨0, -(3 / 4)⟩, ⟨0, -(3 / 4)⟩]

/-- The logical-to-screen transform `paint` builds for the scenario. -/
def scenarioToScreen : RectTransform ℚ :=
  ⟨Rect.from_center_size ((0 : ℚ), (0 : ℚ))
      (Vec2.divScalar (Rect.square_proportions scenarioRect)
        (scenarioConfigK ℚ).zoom), scenarioRect⟩

/-- The drawing state after `draw_hands` in the scenario. -/
def scenarioInit : DrawAcc ℚ :=
  draw_hands (scenarioConfigK ℚ) scenarioHands scenarioToScreen scenarioRect
    ⟨[], [], 0⟩

/-- The drawing state after `draw_fractal_branches` in the scenario. -/
def scenarioFractal : DrawAcc ℚ :=
  draw_fractal_branches (scenarioConfigK ℚ) scenarioRotors scenarioToScreen
    scenarioRect (update_colors (scenarioConfigK ℚ))
    (scenarioConfigK ℚ).start_line_width scenarioInit.nodes scenarioInit.shapes
    scenarioInit.lineCount

/-- The scenario configuration with `luminance_factor` set to `0`. -/
def scenarioConfigLumZero : FractalClockConfig ℚ :=
  { scenarioConfigK ℚ with luminance_factor := 0 }

/-- The tip of a hand as `draw_hands` computes it: `center + hand.vec` with
`center = (0, 0)`. -/
def hand_tip (hand : Hand K) : V2 K := ((0 : K) + hand.vec.1, (0 : K) + hand.vec.2)

/-- The shape `draw_hands` emits for one hand. -/
def hand_seg (config : FractalClockConfig K) (to_screen : RectTransform K)
    (screen_center : V2 K) (hand : Hand K) : Shape K :=
  ⟨screen_center, RectTransform.transform_pos to_screen (hand_tip hand),
    config.start_line_width,
    DepthColor.premult config.hand_color.r config.hand_color.g
      config.hand_color.b config.hand_color.a⟩

/-- Visibility test of one hand's segment. -/
def hand_visible (to_screen : RectTransform K) (rect : Rect K)
    (screen_center : V2 K) (hand : Hand K) : Bool :=
  Rect.intersects rect
    (Rect.from_two_pos screen_center
      (RectTransform.transform_pos to_screen (hand_tip hand)))

/-! ### Helper lemmas about the fractal expansion -/

theorem branch_step_def (w : K) (c : DepthColor K) (ts : RectTransform K)
    (rect : Rect K) (r : Rot2 K) (n : Node K) (acc : DrawAcc K) :
    branch_step w c ts rect r n acc =
      ⟨acc.shapes ++ (if seg_visible ts rect r n then [seg_of ts w c r n] else []),
        acc.nodes ++ [new_node r n],
        acc.lineCount + (if seg_visible ts rect r n then 1 else 0)⟩ := by
  unfold branch_step seg_visible seg_of new_node
  by_cases h : Rect.intersects rect
      (Rect.from_two_pos (RectTransform.transform_pos ts n.pos)
        (RectTransform.transform_pos ts
          (n.pos.1 + (Rot2.mulVec r n.dir).1, n.pos.2 + (Rot2.mulVec r n.dir).2))) <;>
    simp [h]

theorem foldl_branch_step (w : K) (c : DepthColor K) (ts : RectTransform K)
    (rect : Rect K) (r : Rot2 K) (cur : List (Node K)) (acc : DrawAcc K) :
    cur.foldl (fun a2 node => branch_step w c ts rect r node a2) acc =
      ⟨acc.shapes ++ level_segs ts rect w c r cur,
        acc.nodes ++ cur.map (new_node r),
        acc.lineCount + (level_segs ts rect w c r cur).length⟩ := by
  induction cur generalizing acc with
  | nil => simp [level_segs]
  | cons n rest ih =>
    rw [List.foldl_cons, branch_step_def, ih]
    by_cases h : seg_visible ts rect r n <;>
      simp [level_segs, h, List.filter_cons] <;> omega

theorem level_step_def (w : K) (c : DepthColor K) (ts : RectTransform K)
    (rect : Rect K) (rotors : List (Rot2 K)) (cur : List (Node K))
    (acc : DrawAcc K) :
    level_step w c ts rect rotors cur acc =
      ⟨acc.shapes ++ (rotors.map (fun r => level_segs ts rect w c r cur)).flatten,
        acc.nodes ++ (rotors.map (fun r => cur.map (new_node r))).flatten,
        acc.lineCount +
          ((rotors.map (fun r => level_segs ts rect w c r cur)).flatten).length⟩ := by
  induction rotors generalizing acc with
  | nil => simp [level_step]
  | cons r rest ih =>
    unfold level_step at ih ⊢
    rw [List.foldl_cons, foldl_branch_step, ih]
    simp [List.append_assoc]
    omega

theorem level_step_nodes_length (w : K) (c : DepthColor K) (ts : RectTransform K)
    (rect : Rect K) (rotors : List (Rot2 K)) (cur : List (Node K))
    (acc : DrawAcc K) :
    (level_step w c ts rect rotors cur acc).nodes.length =
      acc.nodes.length + rotors.length * cur.length := by
  induction rotors generalizing acc with
  | nil => simp [level_step]
  | cons r rest ih =>
    unfold level_step at ih ⊢
    rw [List.foldl_cons, foldl_branch_step, ih]
    simp [Nat.succ_mul]
    omega

theorem draw_hand_def (config : FractalClockConfig K) (ts : RectTransform K)
    (rect : Rect K) (sc : V2 K) (hand : Hand K) (push : Bool) (acc : DrawAcc K) :
    draw_hand config ts rect sc hand push acc =
      ⟨acc.shapes ++ (if hand_visible ts rect sc hand
          then [hand_seg config ts sc hand] else []),
        acc.nodes ++ (if push then [⟨hand_tip hand, hand.vec⟩] else []),
        acc.lineCount + (if hand_visible ts rect sc hand then 1 else 0)⟩ := by
  have hstep : draw_hand config ts rect sc hand push acc =
      (let acc2 := if hand_visible ts rect sc hand then
          (⟨acc.shapes ++ [hand_seg config ts sc hand], acc.nodes,
            acc.lineCount + 1⟩ : DrawAcc K)
        else acc
      if push then ⟨acc2.shapes, acc2.nodes ++ [⟨hand_tip hand, hand.vec⟩],
        acc2.lineCount⟩ else acc2) := rfl
  rw [hstep]
  cases h : hand_visible ts rect sc hand <;> cases push <;> simp [h]

theorem draw_hands_def (config : FractalClockConfig K) (hands : Hands K)
    (ts : RectTransform K) (rect : Rect K) (acc : DrawAcc K) :
    draw_hands config hands ts rect acc =
      (let sc := RectTransform.transform_pos ts ((0 : K), (0 : K))
      ⟨acc.shapes ++
          ((if hand_visible ts rect sc hands.second
              then [hand_seg config ts sc hands.second] else []) ++
            (if hand_visible ts rect sc hands.minute
              then [hand_seg config ts sc hands.minute] else []) ++
            (if hand_visible ts rect sc hands.hour
              then [hand_seg config ts sc hands.hour] else [])),
        acc.nodes ++ [⟨hand_tip hands.second, hands.second.vec⟩,
          ⟨hand_tip hands.minute, hands.minute.vec⟩],
        acc.lineCount +
          ((if hand_visible ts rect sc hands.second then 1 else 0) +
            (if hand_visible ts rect sc hands.minute then 1 else 0) +
            (if hand_visible ts rect sc hands.hour then 1 else 0))⟩) := by
  unfold draw_hands
  rw [draw_hand_def, draw_hand_def, draw_hand_def]
  simp
  omega

theorem branch_levels_length (config : FractalClockConfig K)
    (rotors : List (Rot2 K)) (ts : RectTransform K) (rect : Rect K) :
    ∀ (colors : List (DepthColor K)) (w : K) (cur : List (Node K)),
      (branch_levels config rotors ts rect colors w cur).length = colors.length := by
  intro colors
  induction colors with
  | nil => intro w cur; rfl
  | cons c rest ih => intro w cur; simp [branch_levels, ih]

theorem level_step_shapes_width (w : K) (c : DepthColor K) (ts : RectTransform K)
    (rect : Rect K) (rotors : List (Rot2 K)) (cur : List (Node K)) :
    ∀ sh ∈ (level_step w c ts rect rotors cur ⟨[], [], 0⟩).shapes, sh.width = w := by
  rw [level_step_def]
  intro sh hsh
  simp [List.mem_flatten] at hsh
  obtain ⟨r, _, hr⟩ := hsh
  simp [level_segs] at hr
  obtain ⟨n, _, rfl⟩ := hr
  rfl

theorem branch_levels_width (config : FractalClockConfig K)
    (rotors : List (Rot2 K)) (ts : RectTransform K) (rect : Rect K) :
    ∀ (colors : List (DepthColor K)) (w : K) (cur : List (Node K)) (d : ℕ),
      d < colors.length →
      ∀ sh ∈ ((branch_levels config rotors ts rect colors w cur).getD d
          ⟨[], [], 0⟩).shapes,
        sh.width = w * config.width_factor ^ (d + 1) := by
  intro colors
  induction colors with
  | nil => intro w cur d hd; simp at hd
  | cons c rest ih =>
    intro w cur d hd sh hsh
    match d with
    | 0 =>
      simp [branch_levels] at hsh
      have := level_step_shapes_width (w * config.width_factor) c ts rect rotors cur sh hsh
      rw [this, pow_one]
    | e + 1 =>
      simp only [branch_levels, List.getD_cons_succ] at hsh
      have := ih (w * config.width_factor)
        (level_step (w * config.width_factor) c ts rect rotors cur ⟨[], [], 0⟩).nodes
        e (by simpa using hd) sh hsh
      rw [this]
      ring

theorem branch_levels_nodes (config : FractalClockConfig K)
    (rotors : List (Rot2 K)) (ts : RectTransform K) (rect : Rect K) :
    ∀ (colors : List (DepthColor K)) (w : K) (cur : List (Node K)) (d : ℕ),
      d ≤ colors.length →
      (nodes_at_depth (branch_levels config rotors ts rect colors w cur) cur d).length =
        rotors.length ^ d * cur.length := by
  intro colors
  induction colors with
  | nil =>
    intro w cur d hd
    simp at hd
    subst hd
    simp [nodes_at_depth]
  | cons c rest ih =>
    intro w cur d hd
    match d with
    | 0 => simp [nodes_at_depth]
    | 1 =>
      simp only [nodes_at_depth, branch_levels, List.getD_cons_zero]
      rw [level_step_nodes_length]
      simp
    | e + 2 =>
      simp only [nodes_at_depth, branch_levels, List.getD_cons_succ]
      have h1 := ih (w * config.width_factor)
        (level_step (w * config.width_factor) c ts rect rotors cur ⟨[], [], 0⟩).nodes
        (e + 1) (by simpa using hd)
      simp only [nodes_at_depth] at h1
      rw [h1, level_step_nodes_length]
      simp
      ring

/-! ### Helper lemmas about the color schedule -/

theorem solidColors_length_le (branch : Color32) (lf : K) :
    ∀ (n : ℕ) (lum : K), (solidColors branch lf n lum).length ≤ n := by
  intro n
  induction n with
  | zero => intro lum; simp [solidColors]
  | succ m ih =>
    intro lum
    unfold solidColors
    dsimp only
    split
    · simp
    · simpa using ih (lum * lf)

theorem rainbowColors_length_le (shsv ehsv : Hsva K) (depth : ℕ) (lf : K) :
    ∀ (n idx : ℕ) (lum : K), (rainbowColors shsv ehsv depth lf idx n lum).length ≤ n := by
  intro n
  induction n with
  | zero => intro idx lum; simp [rainbowColors]
  | succ m ih =>
    intro idx lum
    unfold rainbowColors
    dsimp only
    split
    · simp
    · simpa using ih (idx + 1) (lum * lf)

theorem update_colors_length_le (config : FractalClockConfig K) :
    (update_colors config).length ≤ config.depth := by
  unfold update_colors
  split
  · exact rainbowColors_length_le _ _ _ _ _ _ _
  · exact solidColors_length_le _ _ _ _

theorem solidColors_getD (branch : Color32) (lf : K) :
    ∀ (n : ℕ) (lum : K) (i : ℕ), i < (solidColors branch lf n lum).length →
      (solidColors branch lf n lum).getD i (DepthColor.premult 0 0 0 0) =
        solidEntry branch (min (lum * lf ^ (i + 1)) 1) := by
  intro n
  induction n with
  | zero => intro lum i hi; simp [solidColors] at hi
  | succ m ih =>
    intro lum i hi
    unfold solidColors at hi ⊢
    dsimp only at hi ⊢
    by_cases hcond : lum * lf < minLuminance
    · rw [if_pos hcond] at hi
      simp at hi
    · rw [if_neg hcond] at hi ⊢
      match i with
      | 0 => simp [pow_one]
      | j + 1 =>
        simp only [List.getD_cons_succ]
        simp only [List.length_cons, Nat.add_lt_add_iff_right] at hi
        rw [ih (lum * lf) j hi]
        have harith : lum * lf * lf ^ (j + 1) = lum * lf ^ (j + 1 + 1) := by ring
        rw [harith]

theorem solidColors_mem (branch : Color32) (lf : K) :
    ∀ (n : ℕ) (lum : K) (c : DepthColor K), c ∈ solidColors branch lf n lum →
      ∃ f : K, c = solidEntry branch f := by
  intro n
  induction n with
  | zero => intro lum c hc; simp [solidColors] at hc
  | succ m ih =>
    intro lum c hc
    unfold solidColors at hc
    dsimp only at hc
    split at hc
    · simp at hc
    · rcases List.mem_cons.mp hc with h | h
      · exact ⟨min (lum * lf) 1, h⟩
      · exact ih (lum * lf) c h

theorem solidColors_ne_nil (branch : Color32) (lf : K) (n : ℕ) (lum : K)
    (h : solidColors branch lf n lum ≠ []) : ¬ lum * lf < minLuminance := by
  match n with
  | 0 => simp [solidColors] at h
  | m + 1 =>
    unfold solidColors at h
    dsimp only at h
    intro hlt
    rw [if_pos hlt] at h
    exact h rfl

/-! ### Helper lemmas about the time-of-day extraction -/

theorem natCast_mod_cast (n m : ℕ) (hm : 0 < m) :
    ((n % m : ℕ) : K) = (n : K) - m * ((n / m : ℕ) : K) := by
  have h := Nat.div_add_mod n m
  have : ((m * (n / m) + n % m : ℕ) : K) = (n : K) := by rw [h]
  push_cast at this
  linarith

theorem time_seconds_eq (T : K) (h0 : 0 ≤ T) :
    time_seconds T = T - 60 * ((⌊T / 60⌋ : ℤ) : K) := by
  unfold time_seconds
  rw [natCast_mod_cast _ _ (by norm_num), ← Nat.floor_div_nat T 60,
    natCast_floor_eq_intCast_floor h0,
    natCast_floor_eq_intCast_floor (by positivity), ← Int.self_sub_floor]
  push_cast
  ring

theorem time_minutes_eq (T : K) (h0 : 0 ≤ T) :
    time_minutes T = (T - 3600 * ((⌊T / 3600⌋ : ℤ) : K)) / 60 := by
  unfold time_minutes
  rw [time_seconds_eq T h0]
  rw [natCast_mod_cast _ _ (by norm_num), ← Nat.floor_div_nat (T / 60) 60]
  have h3600 : T / 60 / ((60 : ℕ) : K) = T / 3600 := by
    push_cast
    rw [div_div]
    norm_num
  rw [h3600, natCast_floor_eq_intCast_floor (by positivity : (0 : K) ≤ T / 60),
    natCast_floor_eq_intCast_floor (by positivity : (0 : K) ≤ T / 3600)]
  push_cast
  ring

theorem time_hours_eq (T : K) (h0 : 0 ≤ T) (h1 : T < 86400) :
    time_hours T = T / 3600 := by
  unfold time_hours
  rw [time_minutes_eq T h0]
  have hlt : ⌊T / 3600⌋₊ < 24 := by
    rw [Nat.floor_lt (by positivity), div_lt_iff₀ (by norm_num : (0 : K) < 3600)]
    push_cast
    linarith
  rw [Nat.mod_eq_of_lt hlt, natCast_floor_eq_intCast_floor (by positivity)]
  field_simp
  ring

/-! ### Helper lemmas about the screen transform -/

theorem square_proportions_pos (rect : Rect K) (hx : rect.min.1 < rect.max.1)
    (hy : rect.min.2 < rect.max.2) :
    0 < (Rect.square_proportions rect).1 ∧ 0 < (Rect.square_proportions rect).2 := by
  unfold Rect.square_proportions
  dsimp only
  have hw : 0 < rect.max.1 - rect.min.1 := by linarith
  have hh : 0 < rect.max.2 - rect.min.2 := by linarith
  split
  · exact ⟨div_pos hw hh, by norm_num⟩
  · exact ⟨by norm_num, div_pos hh hw⟩

theorem half_ratio (a : K) (ha : a ≠ 0) :
    ((0 : K) - (0 - 0.5 * a)) / ((0 + 0.5 * a) - (0 - 0.5 * a)) = 1 / 2 := by
  have : (0 + 0.5 * a) - (0 - 0.5 * a) = a := by ring
  rw [this]
  rw [show (0 : K) - (0 - 0.5 * a) = 0.5 * a by ring]
  rw [div_eq_iff ha]
  ring

theorem transform_center (z : K) (rect : Rect K) (hz : 0 < z)
    (hx : rect.min.1 < rect.max.1) (hy : rect.min.2 < rect.max.2) :
    RectTransform.transform_pos
      ⟨Rect.from_center_size ((0 : K), (0 : K))
          (Vec2.divScalar (Rect.square_proportions rect) z), rect⟩
      ((0 : K), (0 : K)) =
      ((rect.min.1 + rect.max.1) / 2, (rect.min.2 + rect.max.2) / 2) := by
  obtain ⟨hs1, hs2⟩ := square_proportions_pos rect hx hy
  have h1 : (Rect.square_proportions rect).1 / z ≠ 0 := (div_pos hs1 hz).ne'
  have h2 : (Rect.square_proportions rect).2 / z ≠ 0 := (div_pos hs2 hz).ne'
  unfold RectTransform.transform_pos Rect.from_center_size Vec2.divScalar
  dsimp only
  rw [half_ratio _ h1, half_ratio _ h2]
  unfold lerp
  simp only [Prod.mk.injEq]
  constructor <;> ring

theorem center_visible (rect : Rect K) (hx : rect.min.1 ≤ rect.max.1)
    (hy : rect.min.2 ≤ rect.max.2) (q : V2 K) :
    Rect.intersects rect
      (Rect.from_two_pos
        ((rect.min.1 + rect.max.1) / 2, (rect.min.2 + rect.max.2) / 2) q) = true := by
  unfold Rect.intersects Rect.from_two_pos
  simp only [Bool.and_eq_true, decide_eq_true_eq]
  refine ⟨⟨⟨?_, ?_⟩, ?_⟩, ?_⟩
  · exact le_trans (by linarith) (le_max_left _ _)
  · exact le_trans (min_le_left _ _) (by linarith)
  · exact le_trans (by linarith) (le_max_left _ _)
  · exact le_trans (min_le_left _ _) (by linarith)

/-- A nonempty solid schedule forces a (strictly) positive luminance factor. -/
theorem lf_pos_of_solid_ne_nil (branch : Color32) (lf : K) (n : ℕ)
    (h : solidColors branch lf n (0.7 : K) ≠ []) : 0 < lf := by
  have h2 := solidColors_ne_nil branch lf n (0.7 : K) h
  unfold minLuminance at h2
  by_contra hle
  push_neg at hle
  apply h2
  have : (0.7 : K) * lf ≤ 0 := by nlinarith
  nlinarith

/-- A solid schedule whose first decayed luminance is already below the
threshold is empty. -/
theorem solidColors_break (branch : Color32) (lf : K) (n : ℕ) (lum : K)
    (h : lum * lf < minLuminance) : solidColors branch lf n lum = [] := by
  cases n with
  | zero => rfl
  | succ m =>
    unfold solidColors
    dsimp only
    rw [if_pos h]

/-- Same for the rainbow schedule. -/
theorem rainbowColors_break (shsv ehsv : Hsva K) (depth : ℕ) (lf : K)
    (idx n : ℕ) (lum : K) (h : lum * lf < minLuminance) :
    rainbowColors shsv ehsv depth lf idx n lum = [] := by
  cases n with
  | zero => rfl
  | succ m =>
    unfold rainbowColors
    dsimp only
    rw [if_pos h]

/-- The rendering state returned by `paint_with` stores the schedule it used. -/
theorem paint_with_state_colors (colors : List (DepthColor K))
    (config : FractalClockConfig K) (hands : Hands K) (rotors : List (Rot2 K))
    (rect : Rect K) :
    (paint_with colors config hands rotors rect).1.depth_colors = colors := rfl

/-! ### Claim theorems -/

/-- C9: when the engine is paused, `update` leaves the stored time unchanged
and does not request a repaint; when not paused, it stores the live clock
value (not a continuation of the previously stored one) and requests the next
frame. -/
theorem claim9_update_state {α : Type} (t now now2 : α) :
    update (⟨true, t⟩ : ClockState α) now = (⟨true, t⟩, false) ∧
    update (⟨false, t⟩ : ClockState α) now = (⟨false, now⟩, true) ∧
    (update (update (⟨false, t⟩ : ClockState α) now).1 now2).1.time = now2 :=
  ⟨rfl, rfl, rfl⟩

/-- C10: in solid (non-rainbow) mode every entry of the computed color
schedule keeps the branch color's alpha channel unchanged: the luminance
factor is applied to the red, green and blue channels only. -/
theorem claim10_alpha_unchanged (config : FractalClockConfig K)
    (hrb : config.rainbow_mode = false) (ha : config.branch_color.a ≤ 255) :
    ∀ c ∈ update_colors config, alpha_of c = some config.branch_color.a := by
  intro c hc
  unfold update_colors at hc
  rw [hrb] at hc
  simp only [Bool.false_eq_true, if_false] at hc
  obtain ⟨f, rfl⟩ := solidColors_mem _ _ _ _ _ hc
  unfold solidEntry alpha_of
  dsimp only
  have hdiv : ((config.branch_color.a : K) / 255) * 255 =
      ((config.branch_color.a : ℤ) : K) := by
    push_cast
    field_simp
  have hval : rustRound ((config.branch_color.a : K) / 255 * 255) =
      (config.branch_color.a : ℤ) := by
    rw [hdiv]
    unfold rustRound
    rw [if_pos (by positivity)]
    rw [add_comm, Int.floor_add_int]
    have hhalf : ⌊(1 : K) / 2⌋ = 0 := by
      rw [Int.floor_eq_zero_iff]
      constructor <;> norm_num
    rw [hhalf, zero_add]
  rw [hval]
  unfold toU8
  rw [Int.toNat_natCast]
  rw [min_eq_left ha]

/-- Witness for C10 at the scenario configuration. -/
theorem claim10_witness :
    (DepthColor.premult 81 130 26 255 : DepthColor ℚ) ∈
        update_colors (scenarioConfigK ℚ) ∧
    alpha_of (DepthColor.premult 81 130 26 255 : DepthColor ℚ) =
      some (scenarioConfigK ℚ).branch_color.a := by
  constructor
  · with_unfolding_all decide
  · exact claim10_alpha_unchanged (scenarioConfigK ℚ) rfl (by decide)
      (DepthColor.premult 81 130 26 255) (by with_unfolding_all decide)

/-- C2 counterexample: with `luminance_factor = 1` (the scenario
configuration) the solid schedule has several entries whose underlying
luminance does not strictly decrease — consecutive entries are equal. -/
theorem claim2_counterexample :
    1 + 1 ≤ (update_colors (scenarioConfigK ℚ)).length ∧
    (update_colors (scenarioConfigK ℚ)).getD 1 (DepthColor.premult 0 0 0 0) =
      (update_colors (scenarioConfigK ℚ)).getD 0 (DepthColor.premult 0 0 0 0) ∧
    ¬ lum_at (scenarioConfigK ℚ) 1 < lum_at (scenarioConfigK ℚ) 0 := by
  refine ⟨?_, ?_, ?_⟩ <;> with_unfolding_all decide

/-- C2 amended: the schedule length never exceeds the configured depth; in
solid mode entry `i` is the branch color scaled by the decayed luminance
`lum_at i = 0.7 * luminance_factor ^ (i + 1)` (clamped at 1), and when
`luminance_factor ≤ 1` the luminance of consecutive entries is
non-increasing (strict decrease fails at `luminance_factor = 1`). -/
theorem claim2_schedule_invariants (config : FractalClockConfig K) :
    (update_colors config).length ≤ config.depth ∧
    (config.rainbow_mode = false →
      ∀ i, i < (update_colors config).length →
        (update_colors config).getD i (DepthColor.premult 0 0 0 0) =
          solidEntry config.branch_color (min (lum_at config i) 1)) ∧
    (config.rainbow_mode = false → config.luminance_factor ≤ 1 →
      ∀ i, i + 1 < (update_colors config).length →
        lum_at config (i + 1) ≤ lum_at config i) := by
  refine ⟨update_colors_length_le config, ?_, ?_⟩
  · intro hrb i hi
    unfold update_colors at hi ⊢
    rw [hrb] at hi ⊢
    simp only [Bool.false_eq_true, if_false] at hi ⊢
    rw [solidColors_getD _ _ _ _ i hi]
    unfold lum_at
    rfl
  · intro hrb hle i hi
    have hne : update_colors config ≠ [] := by
      intro h
      rw [h] at hi
      simp at hi
    have hlf : 0 < config.luminance_factor := by
      unfold update_colors at hne
      rw [hrb] at hne
      simp only [Bool.false_eq_true, if_false] at hne
      exact lf_pos_of_solid_ne_nil _ _ _ hne
    unfold lum_at
    have hpow := pow_le_pow_of_le_one (le_of_lt hlf) hle
      (show i + 1 ≤ i + 1 + 1 by omega)
    exact mul_le_mul_of_nonneg_left hpow (by norm_num)

/-- Witness for C2 at the scenario configuration. -/
theorem claim2_witness :
    (update_colors (scenarioConfigK ℚ)).length ≤ (scenarioConfigK ℚ).depth ∧
    (update_colors (scenarioConfigK ℚ)).getD 0 (DepthColor.premult 0 0 0 0) =
      solidEntry (scenarioConfigK ℚ).branch_color
        (min (lum_at (scenarioConfigK ℚ) 0) 1) ∧
    lum_at (scenarioConfigK ℚ) 1 ≤ lum_at (scenarioConfigK ℚ) 0 := by
  obtain ⟨h1, h2, h3⟩ := claim2_schedule_invariants (scenarioConfigK ℚ)
  exact ⟨h1, h2 rfl 0 (by with_unfolding_all decide),
    h3 rfl (by with_unfolding_all decide) 0 (by with_unfolding_all decide)⟩

/-- C3: before any culling, the node set entering depth level `d` has exactly
`2 * 2 ^ d` nodes: `draw_hands` seeds it with the second- and minute-hand tip
nodes only (the hour hand contributes none), and each level multiplies the
count by the number of rotors, which is 2. -/
theorem claim3_node_doubling (config : FractalClockConfig K) (hands : Hands K)
    (ts : RectTransform K) (rect : Rect K) (rotors : List (Rot2 K))
    (hrot : rotors.length = 2) (d : ℕ)
    (hd : d ≤ (update_colors config).length) :
    (nodes_at_depth
        (branch_levels config rotors ts rect (update_colors config)
          config.start_line_width
          (draw_hands config hands ts rect ⟨[], [], 0⟩).nodes)
        (draw_hands config hands ts rect ⟨[], [], 0⟩).nodes d).length =
      2 * 2 ^ d := by
  have hinit : (draw_hands config hands ts rect ⟨[], [], 0⟩).nodes.length = 2 := by
    rw [draw_hands_def]
    simp
  rw [branch_levels_nodes config rotors ts rect (update_colors config) _ _ d hd,
    hinit, hrot]
  ring

/-- Witness for C3 at the scenario, at the deepest level. -/
theorem claim3_witness :
    scenarioRotors.length = 2 ∧
    3 ≤ (update_colors (scenarioConfigK ℚ)).length ∧
    (nodes_at_depth
        (branch_levels (scenarioConfigK ℚ) scenarioRotors scenarioToScreen
          scenarioRect (update_colors (scenarioConfigK ℚ))
          (scenarioConfigK ℚ).start_line_width
          (draw_hands (scenarioConfigK ℚ) scenarioHands scenarioToScreen
            scenarioRect ⟨[], [], 0⟩).nodes)
        (draw_hands (scenarioConfigK ℚ) scenarioHands scenarioToScreen
          scenarioRect ⟨[], [], 0⟩).nodes 3).length = 2 * 2 ^ 3 :=
  ⟨rfl, by with_unfolding_all decide,
    claim3_node_doubling (scenarioConfigK ℚ) scenarioHands scenarioToScreen
      scenarioRect scenarioRotors rfl 3 (by with_unfolding_all decide)⟩

/-- C6: every segment emitted at depth level `d` (0-based) has line width
`start_line_width * width_factor ^ (d + 1)`. -/
theorem claim6_width_decay (config : FractalClockConfig K)
    (rotors : List (Rot2 K)) (ts : RectTransform K) (rect : Rect K)
    (init : List (Node K)) (d : ℕ) (hd : d < (update_colors config).length) :
    ∀ sh ∈ ((branch_levels config rotors ts rect (update_colors config)
        config.start_line_width init).getD d ⟨[], [], 0⟩).shapes,
      sh.width = config.start_line_width * config.width_factor ^ (d + 1) :=
  branch_levels_width config rotors ts rect (update_colors config)
    config.start_line_width init d hd

/-- Witness for C6 at the scenario, level 0, first emitted segment. -/
theorem claim6_witness :
    0 < (update_colors (scenarioConfigK ℚ)).length ∧
    (((branch_levels (scenarioConfigK ℚ) scenarioRotors scenarioToScreen
          scenarioRect (update_colors (scenarioConfigK ℚ))
          (scenarioConfigK ℚ).start_line_width scenarioInit.nodes).getD 0
        ⟨[], [], 0⟩).shapes.getD 0
        ⟨(0, 0), (0, 0), 0, DepthColor.premult 0 0 0 0⟩ ∈
      ((branch_levels (scenarioConfigK ℚ) scenarioRotors scenarioToScreen
          scenarioRect (update_colors (scenarioConfigK ℚ))
          (scenarioConfigK ℚ).start_line_width scenarioInit.nodes).getD 0
        ⟨[], [], 0⟩).shapes) ∧
    (((branch_levels (scenarioConfigK ℚ) scenarioRotors scenarioToScreen
          scenarioRect (update_colors (scenarioConfigK ℚ))
          (scenarioConfigK ℚ).start_line_width scenarioInit.nodes).getD 0
        ⟨[], [], 0⟩).shapes.getD 0
        ⟨(0, 0), (0, 0), 0, DepthColor.premult 0 0 0 0⟩).width =
      (scenarioConfigK ℚ).start_line_width *
        (scenarioConfigK ℚ).width_factor ^ (0 + 1) := by
  refine ⟨by with_unfolding_all decide, by with_unfolding_all decide, ?_⟩
  exact claim6_width_decay (scenarioConfigK ℚ) scenarioRotors scenarioToScreen
    scenarioRect scenarioInit.nodes 0 (by with_unfolding_all decide) _
    (by with_unfolding_all decide)

/-- With the screen transform `paint` builds, `draw_hands` on a nondegenerate
clip rectangle always emits exactly the three hand segments: the shared
endpoint of every hand segment is the screen center, which lies inside the
clip rectangle. -/
theorem draw_hands_count (config : FractalClockConfig K) (hands : Hands K)
    (rect : Rect K) (hz : 0 < config.zoom) (hx : rect.min.1 < rect.max.1)
    (hy : rect.min.2 < rect.max.2) :
    (draw_hands config hands
        ⟨Rect.from_center_size ((0 : K), (0 : K))
          (Vec2.divScalar (Rect.square_proportions rect) config.zoom), rect⟩
        rect ⟨[], [], 0⟩).shapes.length = 3 ∧
    (draw_hands config hands
        ⟨Rect.from_center_size ((0 : K), (0 : K))
          (Vec2.divScalar (Rect.square_proportions rect) config.zoom), rect⟩
        rect ⟨[], [], 0⟩).lineCount = 3 := by
  rw [draw_hands_def]
  dsimp only
  rw [transform_center config.zoom rect hz hx hy]
  have hv : ∀ hand : Hand K,
      hand_visible
        ⟨Rect.from_center_size ((0 : K), (0 : K))
          (Vec2.divScalar (Rect.square_proportions rect) config.zoom), rect⟩
        rect ((rect.min.1 + rect.max.1) / 2, (rect.min.2 + rect.max.2) / 2)
        hand = true := by
    intro hand
    unfold hand_visible
    exact center_visible rect (le_of_lt hx) (le_of_lt hy) _
  rw [hv hands.second, hv hands.minute, hv hands.hour]
  simp

/-- `paint_with` on an empty schedule returns exactly the hand pass's output:
the fractal loop contributes nothing. -/
theorem paint_with_nil (config : FractalClockConfig K) (hands : Hands K)
    (rotors : List (Rot2 K)) (rect : Rect K) :
    (paint_with ([] : List (DepthColor K)) config hands rotors rect).2.1 =
      (draw_hands config hands
        ⟨Rect.from_center_size ((0 : K), (0 : K))
          (Vec2.divScalar (Rect.square_proportions rect) config.zoom), rect⟩
        rect ⟨[], [], 0⟩).shapes ∧
    (paint_with ([] : List (DepthColor K)) config hands rotors rect).2.2 =
      (draw_hands config hands
        ⟨Rect.from_center_size ((0 : K), (0 : K))
          (Vec2.divScalar (Rect.square_proportions rect) config.zoom), rect⟩
        rect ⟨[], [], 0⟩).lineCount :=
  ⟨rfl, rfl⟩

/-- C7: with `luminance_factor = 0` the first computed luminance `0.7 * 0`
is already below the visibility threshold, so the color schedule is empty
and a render emits no fractal branch segments — only the 3 hand segments
(for any nondegenerate clip rectangle and positive zoom, once the stale
schedule has been invalidated). -/
theorem claim7_zero_luminance_factor (csin ccos : K → K) (tau : K)
    (st : Rendering K) (config : FractalClockConfig K) (T : K) (rect : Rect K)
    (hlf : config.luminance_factor = 0) (hst : st.depth_colors = [])
    (hz : 0 < config.zoom) (hx : rect.min.1 < rect.max.1)
    (hy : rect.min.2 < rect.max.2) :
    update_colors config = [] ∧
    (paint csin ccos tau st config T rect).2.1.length = 3 ∧
    (paint csin ccos tau st config T rect).2.2 = 3 := by
  have hcol : update_colors config = [] := by
    unfold update_colors
    have h07 : (0.7 : K) * config.luminance_factor < minLuminance := by
      rw [hlf, mul_zero]
      unfold minLuminance
      norm_num
    split
    · exact rainbowColors_break _ _ _ _ _ _ _ h07
    · exact solidColors_break _ _ _ _ h07
  have hpaint : paint csin ccos tau st config T rect =
      paint_with [] config (create_hands csin ccos tau config T)
        (calculate_hand_rotors csin ccos tau (create_hands csin ccos tau config T))
        rect := by
    unfold paint paint_core
    dsimp only
    rw [hst]
    simp [hcol]
  obtain ⟨hs, hc⟩ := paint_with_nil config (create_hands csin ccos tau config T)
    (calculate_hand_rotors csin ccos tau (create_hands csin ccos tau config T)) rect
  obtain ⟨hl, hcnt⟩ := draw_hands_count config (create_hands csin ccos tau config T)
    rect hz hx hy
  rw [hpaint]
  exact ⟨hcol, by rw [hs, hl], by rw [hc, hcnt]⟩

/-- Witness for C7 at a concrete zero-luminance configuration. -/
theorem claim7_witness :
    (scenarioConfigLumZero.luminance_factor = 0 ∧
      (⟨[], [], [], []⟩ : Rendering ℚ).depth_colors = ([] : List (DepthColor ℚ)) ∧
      (0 : ℚ) < scenarioConfigLumZero.zoom ∧
      scenarioRect.min.1 < scenarioRect.max.1 ∧
      scenarioRect.min.2 < scenarioRect.max.2) ∧
    update_colors scenarioConfigLumZero = [] ∧
    (paint (fun _ => 0) (fun _ => 0) 0 ⟨[], [], [], []⟩ scenarioConfigLumZero 0
      scenarioRect).2.1.length = 3 ∧
    (paint (fun _ => 0) (fun _ => 0) 0 ⟨[], [], [], []⟩ scenarioConfigLumZero 0
      scenarioRect).2.2 = 3 := by
  refine ⟨⟨rfl, rfl, by norm_num [scenarioConfigLumZero, scenarioConfigK],
    by norm_num [scenarioRect], by norm_num [scenarioRect]⟩, ?_⟩
  exact claim7_zero_luminance_factor (fun _ => 0) (fun _ => 0) 0
    ⟨[], [], [], []⟩ scenarioConfigLumZero 0 scenarioRect rfl rfl
    (by norm_num [scenarioConfigLumZero, scenarioConfigK])
    (by norm_num [scenarioRect]) (by norm_num [scenarioRect])

/-- C8: rendering twice with the same configuration and the same frozen time
produces identical output (shapes and line count), for every starting state
of the reused buffers. -/
theorem claim8_render_idempotent (csin ccos : K → K) (tau : K)
    (st : Rendering K) (config : FractalClockConfig K) (T : K) (rect : Rect K) :
    (paint csin ccos tau (paint csin ccos tau st config T rect).1 config T
        rect).2 =
      (paint csin ccos tau st config T rect).2 := by
  unfold paint paint_core
  dsimp only
  rw [paint_with_state_colors]
  have key :
      (if (if st.depth_colors.isEmpty then update_colors config
            else st.depth_colors).isEmpty = true then update_colors config
        else if st.depth_colors.isEmpty then update_colors config
          else st.depth_colors) =
      (if st.depth_colors.isEmpty then update_colors config
        else st.depth_colors) := by
    cases hst : st.depth_colors.isEmpty <;> simp [hst]
  rw [key]

/-- C5: the two rotors are the rotations by `hand.angle - hour.angle + π`
scaled by `hand.length`, for the second and the minute hand; and one depth
level extends the drawing state by, for each rotor `r` and each current node
`n`: the node whose direction is `r` applied to `n.dir` and whose position is
`n.pos + r * n.dir` (`new_node`), together with the segment from the old to
the new position mapped to screen coordinates (`seg_of`), emitted when
visible (`level_segs`). -/
theorem claim5_rotors_and_level (w : K) (c : DepthColor K)
    (ts : RectTransform K) (rect : Rect K) (rotors : List (Rot2 K))
    (cur : List (Node K)) (acc : DrawAcc K) :
    (∀ hands : Hands ℝ,
      calculate_hand_rotors Real.sin Real.cos (2 * Real.pi) hands =
        [Rot2.scale hands.second.length
            ⟨Real.sin (hands.second.angle - hands.hour.angle + Real.pi),
              Real.cos (hands.second.angle - hands.hour.angle + Real.pi)⟩,
          Rot2.scale hands.minute.length
            ⟨Real.sin (hands.minute.angle - hands.hour.angle + Real.pi),
              Real.cos (hands.minute.angle - hands.hour.angle + Real.pi)⟩]) ∧
    level_step w c ts rect rotors cur acc =
      ⟨acc.shapes ++ (rotors.map fun r => level_segs ts rect w c r cur).flatten,
        acc.nodes ++ (rotors.map fun r => cur.map (new_node r)).flatten,
        acc.lineCount +
          ((rotors.map fun r => level_segs ts rect w c r cur).flatten).length⟩ := by
  constructor
  · intro hands
    unfold calculate_hand_rotors Rot2.from_angle
    dsimp only
    have harg : ∀ x : ℝ, x + 2 * Real.pi / 2 = x + Real.pi := fun x => by ring
    rw [harg, harg]
  · exact level_step_def w c ts rect rotors cur acc

/-- C4 counterexample: at noon (`T = 43200`, a valid time of day) the hour
hand's stored angle is `3π/2`, while the claimed formula
`2π·frac(T/43200) - π/2` gives `-π/2`; the two differ (by `2π`). -/
theorem claim4_counterexample :
    (create_hands Real.sin Real.cos (2 * Real.pi) (scenarioConfigK ℝ)
        43200).hour.angle = 3 * Real.pi / 2 ∧
    2 * Real.pi *
        ((43200 - 43200 * ((⌊(43200 : ℝ) / 43200⌋ : ℤ) : ℝ)) / 43200) -
        Real.pi / 2 = -(Real.pi / 2) ∧
    (3 * Real.pi / 2 : ℝ) ≠ -(Real.pi / 2) := by
  refine ⟨?_, ?_, ?_⟩
  · have h := time_hours_eq (43200 : ℝ) (by norm_num) (by norm_num)
    unfold create_hands Hand.from_length_angle
    dsimp only
    rw [h]
    ring
  · have h1 : (43200 : ℝ) / 43200 = 1 := by norm_num
    rw [h1, Int.floor_one]
    push_cast
    ring
  · intro h
    have hpi := Real.pi_pos
    linarith

/-- C4 amended: for every time of day `T ∈ [0, 86400)`, the second and
minute hands' angles satisfy the claimed formula
`2π·((T mod P)/P) - π/2` exactly (P = 60 and 3600); the hour hand's stored
angle is `2π·(T/43200) - π/2`, without the modulo, which is congruent to the
claimed formula modulo `2π` (equal direction, angle value offset by
`2π·⌊T/43200⌋` in the afternoon); the second and minute hands have length
`length_factor` and the hour hand has fixed length `0.5`. -/
theorem claim4_hand_angles (config : FractalClockConfig ℝ) (T : ℝ)
    (h0 : 0 ≤ T) (h1 : T < 86400) :
    (create_hands Real.sin Real.cos (2 * Real.pi) config T).second.angle =
        2 * Real.pi * ((T - 60 * ((⌊T / 60⌋ : ℤ) : ℝ)) / 60) - Real.pi / 2 ∧
    (create_hands Real.sin Real.cos (2 * Real.pi) config T).minute.angle =
        2 * Real.pi * ((T - 3600 * ((⌊T / 3600⌋ : ℤ) : ℝ)) / 3600) -
          Real.pi / 2 ∧
    (create_hands Real.sin Real.cos (2 * Real.pi) config T).hour.angle =
        2 * Real.pi * (T / 43200) - Real.pi / 2 ∧
    (∃ k : ℤ, (create_hands Real.sin Real.cos (2 * Real.pi) config T).hour.angle =
        2 * Real.pi * ((T - 43200 * ((⌊T / 43200⌋ : ℤ) : ℝ)) / 43200) -
          Real.pi / 2 + 2 * Real.pi * k) ∧
    (create_hands Real.sin Real.cos (2 * Real.pi) config T).second.length =
      config.length_factor ∧
    (create_hands Real.sin Real.cos (2 * Real.pi) config T).minute.length =
      config.length_factor ∧
    (create_hands Real.sin Real.cos (2 * Real.pi) config T).hour.length = 0.5 := by
  unfold create_hands Hand.from_length_angle
  dsimp only
  refine ⟨?_, ?_, ?_, ?_, rfl, rfl, rfl⟩
  · rw [time_seconds_eq T h0]
    ring
  · rw [time_minutes_eq T h0]
    ring
  · rw [time_hours_eq T h0 h1]
    ring
  · refine ⟨⌊T / 43200⌋, ?_⟩
    rw [time_hours_eq T h0 h1]
    ring

/-- Witness for C4 at `T = 3661` (01:01:01). -/
theorem claim4_witness :
    (0 : ℝ) ≤ 3661 ∧ (3661 : ℝ) < 86400 ∧
    (create_hands Real.sin Real.cos (2 * Real.pi) (scenarioConfigK ℝ)
        3661).hour.angle = 2 * Real.pi * ((3661 : ℝ) / 43200) - Real.pi / 2 :=
  ⟨by norm_num, by norm_num,
    (claim4_hand_angles (scenarioConfigK ℝ) 3661 (by norm_num)
      (by norm_num)).2.2.1⟩

/-- At `t = 0` the three hands all have angle `-π/2` and point straight up
(screen-convention), with lengths `0.75`, `0.75`, `0.5`. -/
theorem scenario_hands_real :
    create_hands Real.sin Real.cos (2 * Real.pi) (scenarioConfigK ℝ) 0 =
      ⟨⟨3 / 4, -(Real.pi / 2), (0, -(3 / 4))⟩,
        ⟨3 / 4, -(Real.pi / 2), (0, -(3 / 4))⟩,
        ⟨1 / 2, -(Real.pi / 2), (0, -(1 / 2))⟩⟩ := by
  have hsec : time_seconds (0 : ℝ) = 0 := by
    unfold time_seconds
    norm_num
  have hmin : time_minutes (0 : ℝ) = 0 := by
    unfold time_minutes
    rw [hsec]
    norm_num
  have hhour : time_hours (0 : ℝ) = 0 := by
    unfold time_hours
    rw [hmin]
    norm_num
  unfold create_hands Hand.from_length_angle
  rw [hsec, hmin, hhour]
  have hang : 2 * Real.pi * 0 / 60 - 2 * Real.pi / 4 = -(Real.pi / 2) := by ring
  have hang2 : 2 * Real.pi * 0 / 12 - 2 * Real.pi / 4 = -(Real.pi / 2) := by ring
  rw [hang, hang2]
  have hcos : Real.cos (-(Real.pi / 2)) = 0 := by
    rw [Real.cos_neg, Real.cos_pi_div_two]
  have hsin : Real.sin (-(Real.pi / 2)) = -1 := by
    rw [Real.sin_neg, Real.sin_pi_div_two]
  rw [hcos, hsin]
  simp only [Hands.mk.injEq, Hand.mk.injEq, Prod.mk.injEq, scenarioConfigK]
  norm_num

/-- At `t = 0` both rotors are the rotation by `π` scaled by `0.75`. -/
theorem scenario_rotors_real :
    calculate_hand_rotors Real.sin Real.cos (2 * Real.pi)
        (create_hands Real.sin Real.cos (2 * Real.pi) (scenarioConfigK ℝ) 0) =
      [⟨0, -(3 / 4)⟩, ⟨0, -(3 / 4)⟩] := by
  rw [scenario_hands_real]
  unfold calculate_hand_rotors Rot2.from_angle Rot2.scale
  dsimp only
  have harg : -(Real.pi / 2) - -(Real.pi / 2) + 2 * Real.pi / 2 = Real.pi := by
    ring
  rw [harg, Real.sin_pi, Real.cos_pi]
  norm_num

/-- C1 counterexample: in the scenario (paused at `t = 0`, zoom 0.5, depth 3,
length/width factors 0.75, luminance factor 1, solid RGB(115,186,37)) the
render emits 28 fractal segments, not 14 (two rotors over node sets of sizes
2, 4, 8 give 4 + 8 + 16 emissions), and the schedule's consecutive colors are
equal, not strictly dimmer.  The first two conjuncts pin the rational hand
and rotor values used by the render to the real pipeline at `t = 0`. -/
theorem claim1_counterexample :
    (create_hands Real.sin Real.cos (2 * Real.pi) (scenarioConfigK ℝ)
        0).second.vec = ((0 : ℝ), -(3 / 4)) ∧
    calculate_hand_rotors Real.sin Real.cos (2 * Real.pi)
        (create_hands Real.sin Real.cos (2 * Real.pi) (scenarioConfigK ℝ) 0) =
      [⟨0, -(3 / 4)⟩, ⟨0, -(3 / 4)⟩] ∧
    scenarioFractal.lineCount - scenarioInit.lineCount = 28 ∧
    scenarioFractal.lineCount - scenarioInit.lineCount ≠ 14 ∧
    (update_colors (scenarioConfigK ℚ)).getD 1 (DepthColor.premult 0 0 0 0) =
      (update_colors (scenarioConfigK ℚ)).getD 0 (DepthColor.premult 0 0 0 0) := by
  refine ⟨?_, scenario_rotors_real, ?_, ?_, ?_⟩
  · rw [scenario_hands_real]
  · with_unfolding_all decide
  · with_unfolding_all decide
  · with_unfolding_all decide

/-- C1 amended: in the scenario the three hands all have angle `-π/2` with
lengths `0.75 / 0.75 / 0.5` and are all emitted (3 hand segments), and the
fractal pass emits exactly `4 + 8 + 16 = 28` further segments (2 rotors ×
node counts 2, 4, 8 at the three depth levels); with `luminance_factor = 1`
the luminance stays at `0.7`, so all three depth levels share the same color
RGB(81, 130, 26) instead of growing strictly dimmer. -/
theorem claim1_scenario_render :
    create_hands Real.sin Real.cos (2 * Real.pi) (scenarioConfigK ℝ) 0 =
      ⟨⟨3 / 4, -(Real.pi / 2), (0, -(3 / 4))⟩,
        ⟨3 / 4, -(Real.pi / 2), (0, -(3 / 4))⟩,
        ⟨1 / 2, -(Real.pi / 2), (0, -(1 / 2))⟩⟩ ∧
    calculate_hand_rotors Real.sin Real.cos (2 * Real.pi)
        (create_hands Real.sin Real.cos (2 * Real.pi) (scenarioConfigK ℝ) 0) =
      [⟨0, -(3 / 4)⟩, ⟨0, -(3 / 4)⟩] ∧
    scenarioInit.lineCount = 3 ∧
    scenarioFractal.lineCount = scenarioInit.lineCount + 28 ∧
    update_colors (scenarioConfigK ℚ) =
      [DepthColor.premult 81 130 26 255, DepthColor.premult 81 130 26 255,
        DepthColor.premult 81 130 26 255] :=
  ⟨scenario_hands_real, scenario_rotors_real, by with_unfolding_all decide,
    by with_unfolding_all decide, by with_unfolding_all decide⟩

end FractalClock
